import Mathlib

/-!
Shallow embedding of `src/usernamegen.py` (the `usernamegen` function,
lines 13-61).  Python strings are modelled as Lean `String`s (sequences of
Unicode scalar values); each Python string primitive used by the source is
embedded as a function on the underlying character list.
-/

/-- The characters Python's `str.strip()` (with no argument) removes:
exactly those `c` with `c.isspace()`, i.e. the Unicode whitespace
characters together with the separator controls U+001C-U+001F and U+0085. -/
def pyIsSpace (c : Char) : Bool :=
  c = '\t' || c = '\n' || c = '\x0b' || c = '\x0c' || c = '\r' ||
  c = '\x1c' || c = '\x1d' || c = '\x1e' || c = '\x1f' || c = ' ' ||
  c = '\x85' || c = '\xa0' || c = '\u1680' ||
  (0x2000 ≤ c.toNat && c.toNat ≤ 0x200a) ||
  c = '\u2028' || c = '\u2029' || c = '\u202f' || c = '\u205f' || c = '\u3000'

/-- Python's `str.lower()`, restricted to the ASCII and Latin-1 uppercase
letters (U+0041-U+005A, and U+00C0-U+00DE except the multiplication sign
U+00D7), which each map to their lowercase form 32 code points higher;
other characters are left unchanged.  This covers every character class the
program treats specially (ASCII letters and `É`, `Å`, `Ä`, `Ö`). -/
def pyLowerChar (c : Char) : Char :=
  if 'A' ≤ c && c ≤ 'Z' then Char.ofNat (c.toNat + 32)
  else if 0xC0 ≤ c.toNat && c.toNat ≤ 0xDE && c.toNat ≠ 0xD7 then
    Char.ofNat (c.toNat + 32)
  else c

/-- Python slicing `s[:n]` for non-negative `n`: the leading `n` characters
of `s`, or all of `s` when it is shorter. -/
def pyTake (s : String) (n : Nat) : String :=
  String.mk (s.data.take n)

/-- Python `s.strip()`: remove leading and trailing whitespace characters. -/
def pyStrip (s : String) : String :=
  String.mk (((s.data.dropWhile pyIsSpace).reverse.dropWhile pyIsSpace).reverse)

/-- Python `s.lower()` (see `pyLowerChar`). -/
def pyLower (s : String) : String :=
  String.mk (s.data.map pyLowerChar)

/-- Python `s.replace('é', 'e')`: since the pattern is a single character,
this is a character-by-character substitution. -/
def pyReplaceEAcute (s : String) : String :=
  String.mk (s.data.map fun c => if c = 'é' then 'e' else c)

/-- Python `s.translate(str.maketrans('åäö', 'aao'))`: the character map
`å`→`a`, `ä`→`a`, `ö`→`o`, identity elsewhere. -/
def pyTranslateAao (s : String) : String :=
  String.mk (s.data.map fun c =>
    if c = 'å' then 'a' else if c = 'ä' then 'a' else if c = 'ö' then 'o' else c)

/-- The per-name transformation of `usernamegen` (source lines 51-56):
`name[:numChars].strip().lower().replace('é', 'e')`, followed by the
åäö-translation exactly when `permit_aao` is false. -/
def transformName (name : String) (numChars : Nat) (permitAao : Bool) : String :=
  let part := pyReplaceEAcute (pyLower (pyStrip (pyTake name numChars)))
  if permitAao then part else pyTranslateAao part

/-- The empty-sequence substitution `xs or ('',)` of source lines 40-43:
an empty collection is replaced by the one-element collection `[""]`. -/
def substEmpty (l : List String) : List String :=
  if l.isEmpty then [""] else l

/-- `itertools.product(prefixes, first_names, last_names, suffixes)`
(source line 49): all tuples, the last axis varying fastest. -/
def productTuples (prefixes firstNames lastNames suffixes : List String) :
    List (String × String × String × String) :=
  prefixes.flatMap fun pre =>
    firstNames.flatMap fun firstName =>
      lastNames.flatMap fun lastName =>
        suffixes.map fun suffix => (pre, firstName, lastName, suffix)

/-- The candidate built for one tuple (source line 58):
`f'{prefix}{first_name_part}{last_name_part}{suffix}'`. -/
def candidateOfTuple (numFirstNameChars numLastNameChars : Nat)
    (permitAao : Bool) (t : String × String × String × String) : String :=
  t.1 ++ transformName t.2.1 numFirstNameChars permitAao
      ++ transformName t.2.2.1 numLastNameChars permitAao ++ t.2.2.2

/-- `usernamegen` (source lines 13-61): substitute `[""]` for each empty
input collection, form the cartesian product, build each candidate, and
collect the non-empty candidates into a set (the walrus-guarded
`user_names.add` of lines 58-59). -/
def usernamegen (firstNames lastNames prefixes suffixes : List String)
    (numFirstNameChars numLastNameChars : Nat) (permitAao : Bool) :
    Finset String :=
  (((productTuples (substEmpty prefixes) (substEmpty firstNames)
        (substEmpty lastNames) (substEmpty suffixes)).map
      (candidateOfTuple numFirstNameChars numLastNameChars permitAao)).filter
    (fun u => u != "")).toFinset

/-! ## Helper lemmas -/

theorem mem_productTuples {ps fs ls ss : List String}
    {t : String × String × String × String} :
    t ∈ productTuples ps fs ls ss ↔
      t.1 ∈ ps ∧ t.2.1 ∈ fs ∧ t.2.2.1 ∈ ls ∧ t.2.2.2 ∈ ss := by
  obtain ⟨p, f, l, s⟩ := t
  simp only [productTuples, List.mem_flatMap, List.mem_map, Prod.mk.injEq]
  aesop

theorem mem_usernamegen_iff
    (firstNames lastNames prefixes suffixes : List String)
    (numFirstNameChars numLastNameChars : Nat) (permitAao : Bool)
    (u : String) :
    u ∈ usernamegen firstNames lastNames prefixes suffixes
        numFirstNameChars numLastNameChars permitAao ↔
      u ≠ "" ∧ ∃ p ∈ substEmpty prefixes, ∃ f ∈ substEmpty firstNames,
        ∃ l ∈ substEmpty lastNames, ∃ s ∈ substEmpty suffixes,
          u = p ++ transformName f numFirstNameChars permitAao
              ++ transformName l numLastNameChars permitAao ++ s := by
  simp only [usernamegen, List.mem_toFinset, List.mem_filter, List.mem_map,
    bne_iff_ne, ne_eq]
  constructor
  · rintro ⟨⟨t, ht, rfl⟩, hne⟩
    rw [mem_productTuples] at ht
    exact ⟨hne, t.1, ht.1, t.2.1, ht.2.1, t.2.2.1, ht.2.2.1, t.2.2.2,
      ht.2.2.2, rfl⟩
  · rintro ⟨hne, p, hp, f, hf, l, hl, s, hs, rfl⟩
    exact ⟨⟨(p, f, l, s), mem_productTuples.mpr ⟨hp, hf, hl, hs⟩, rfl⟩, hne⟩

theorem substEmpty_idem (l : List String) :
    substEmpty (substEmpty l) = substEmpty l := by
  cases l <;> simp [substEmpty]

theorem substEmpty_of_ne_nil {l : List String} (h : l ≠ []) :
    substEmpty l = l := by
  cases l with
  | nil => exact absurd rfl h
  | cons x xs => simp [substEmpty]

theorem eacute_not_mem_replace (s : String) : 'é' ∉ (pyReplaceEAcute s).data := by
  intro h
  simp only [pyReplaceEAcute, List.mem_map] at h
  obtain ⟨c, _, hc⟩ := h
  by_cases h1 : c = 'é'
  · rw [if_pos h1] at hc
    exact absurd hc (by decide)
  · rw [if_neg h1] at hc
    exact h1 hc

theorem eacute_not_mem_translate {s : String} (h : 'é' ∉ s.data) :
    'é' ∉ (pyTranslateAao s).data := by
  intro hmem
  simp only [pyTranslateAao, List.mem_map] at hmem
  obtain ⟨c, hcs, hc⟩ := hmem
  by_cases h1 : c = 'å'
  · rw [if_pos h1] at hc
    exact absurd hc (by decide)
  · rw [if_neg h1] at hc
    by_cases h2 : c = 'ä'
    · rw [if_pos h2] at hc
      exact absurd hc (by decide)
    · rw [if_neg h2] at hc
      by_cases h3 : c = 'ö'
      · rw [if_pos h3] at hc
        exact absurd hc (by decide)
      · rw [if_neg h3] at hc
        exact h (hc ▸ hcs)

theorem eacute_not_mem_transformName (name : String) (n : Nat) (aao : Bool) :
    'é' ∉ (transformName name n aao).data := by
  rw [transformName]
  cases aao with
  | true => exact eacute_not_mem_replace _
  | false =>
    simp only [Bool.false_eq_true, if_false]
    exact eacute_not_mem_translate (eacute_not_mem_replace _)

/-! ## Claim theorems -/

/-- C1: every element of the result is exactly
`prefix ++ transformedFirstNamePart ++ transformedLastNamePart ++ suffix`
for some tuple drawn from the (empty-axis-substituted) input sequences,
where each name part is produced by `transformName` (truncate, strip,
lower-case, fold `é`, and, when `permitAao` is false, transliterate åäö,
in that order); and in particular
`generate(["Alexander"], ["Smith"], [], [], 3, 4, false) = {"alesmit"}`. -/
theorem usernamegen_candidate_formula :
    (∀ (firstNames lastNames prefixes suffixes : List String)
        (numFirstNameChars numLastNameChars : Nat) (permitAao : Bool)
        (u : String),
      u ∈ usernamegen firstNames lastNames prefixes suffixes
          numFirstNameChars numLastNameChars permitAao ↔
        u ≠ "" ∧ ∃ p ∈ substEmpty prefixes, ∃ f ∈ substEmpty firstNames,
          ∃ l ∈ substEmpty lastNames, ∃ s ∈ substEmpty suffixes,
            u = p ++ transformName f numFirstNameChars permitAao
                ++ transformName l numLastNameChars permitAao ++ s) ∧
    usernamegen ["Alexander"] ["Smith"] [] [] 3 4 false = {"alesmit"} := by
  exact ⟨mem_usernamegen_iff, by decide⟩

/-- C2: an empty input sequence behaves exactly as the one-element sequence
containing the empty string (`usernamegen` is invariant under applying
`substEmpty` to each axis); and in particular
`generate([], ["Doe"], [], [], 3, 3, false) = {"doe"}`. -/
theorem usernamegen_empty_axis_substitution :
    (∀ (firstNames lastNames prefixes suffixes : List String)
        (numFirstNameChars numLastNameChars : Nat) (permitAao : Bool),
      usernamegen firstNames lastNames prefixes suffixes
          numFirstNameChars numLastNameChars permitAao =
        usernamegen (substEmpty firstNames) (substEmpty lastNames)
          (substEmpty prefixes) (substEmpty suffixes)
          numFirstNameChars numLastNameChars permitAao) ∧
    usernamegen [] ["Doe"] [] [] 3 3 false = {"doe"} := by
  refine ⟨fun fns lns pfs sfs nf nl aao => ?_, by decide⟩
  simp only [usernamegen, substEmpty_idem]

/-- C3: the empty string is never an element of the result set, and all-empty
inputs give the empty set:
`generate([""], [""], [""], [""], 3, 3, false) = {}`. -/
theorem usernamegen_no_empty_output :
    (∀ (firstNames lastNames prefixes suffixes : List String)
        (numFirstNameChars numLastNameChars : Nat) (permitAao : Bool),
      "" ∉ usernamegen firstNames lastNames prefixes suffixes
          numFirstNameChars numLastNameChars permitAao) ∧
    usernamegen [""] [""] [""] [""] 3 3 false = (∅ : Finset String) := by
  refine ⟨fun fns lns pfs sfs nf nl aao h => ?_, by decide⟩
  rw [mem_usernamegen_iff] at h
  exact h.1 rfl

/-- C4: the åäö transliteration is applied to name parts exactly when
`permitAao` is false: `transformName` with `permitAao = false` ends with
`pyTranslateAao` and with `permitAao = true` does not; and in particular
`generate(["Åke"], ["Öberg"], [], [], 3, 3, false) = {"akeobe"}` while
`generate(["Åke"], ["Öberg"], [], [], 3, 3, true) = {"åkeöbe"}`. -/
theorem usernamegen_aao_transliteration :
    (∀ (name : String) (n : Nat),
      transformName name n false =
        pyTranslateAao (pyReplaceEAcute (pyLower (pyStrip (pyTake name n)))) ∧
      transformName name n true =
        pyReplaceEAcute (pyLower (pyStrip (pyTake name n)))) ∧
    usernamegen ["Åke"] ["Öberg"] [] [] 3 3 false = {"akeobe"} ∧
    usernamegen ["Åke"] ["Öberg"] [] [] 3 3 true = {"åkeöbe"} := by
  exact ⟨fun name n => ⟨rfl, rfl⟩, by decide, by decide⟩

/-- C5: the folding of `é` to `e` happens regardless of `permitAao`: no
transformed name part ever contains `é`, whatever the flag; and in particular
`generate(["André"], ["Léger"], [], [], 3, 3, true) = {"andleg"}`. -/
theorem usernamegen_eacute_folding_unconditional :
    (∀ (name : String) (n : Nat) (permitAao : Bool),
      'é' ∉ (transformName name n permitAao).data) ∧
    usernamegen ["André"] ["Léger"] [] [] 3 3 true = {"andleg"} := by
  exact ⟨eacute_not_mem_transformName, by decide⟩

/-- C9: prefixes and suffixes are concatenated verbatim: every candidate is
the untransformed prefix, then the two transformed name parts, then the
untransformed suffix; and in particular a prefix with `Å`, a space and
upper-case letters survives unchanged even with `permitAao = false`:
`generate(["Bo"], ["Li"], ["Å X."], [".Y"], 3, 3, false) = {"Å X.boli.Y"}`. -/
theorem usernamegen_prefix_suffix_verbatim :
    (∀ (numFirstNameChars numLastNameChars : Nat) (permitAao : Bool)
        (p f l s : String),
      candidateOfTuple numFirstNameChars numLastNameChars permitAao
          (p, f, l, s) =
        p ++ candidateOfTuple numFirstNameChars numLastNameChars permitAao
          ("", f, l, "") ++ s) ∧
    usernamegen ["Bo"] ["Li"] ["Å X."] [".Y"] 3 3 false = {"Å X.boli.Y"} := by
  refine ⟨fun nf nl aao p f l s => ?_, by decide⟩
  simp [candidateOfTuple, String.append_assoc]

/-- C10: lower-casing precedes the character replacements, so upper-case
accented characters in the truncated slice are folded as well: `É` becomes
`e` for either value of `permitAao`, and `Å`, `Ä`, `Ö` become `a`, `a`, `o`
when `permitAao` is false. -/
theorem usernamegen_uppercase_accents_folded :
    (∀ permitAao : Bool, transformName "É" 1 permitAao = "e") ∧
    usernamegen ["É"] ["ÅÄÖ"] [] [] 1 3 false = {"eaao"} ∧
    usernamegen ["É"] ["ÅÄÖ"] [] [] 1 3 true = {"eåäö"} := by
  refine ⟨fun aao => ?_, by decide, by decide⟩
  cases aao <;> decide

theorem length_flatMap_const {α β : Type} (l : List α) (f : α → List β)
    (k : Nat) (h : ∀ a ∈ l, (f a).length = k) :
    (l.flatMap f).length = l.length * k := by
  induction l with
  | nil => simp
  | cons x xs ih =>
    simp only [List.flatMap_cons, List.length_append, List.length_cons]
    rw [h x (List.mem_cons_self x xs),
      ih fun a ha => h a (List.mem_cons_of_mem x ha), Nat.succ_mul,
      Nat.add_comm]

theorem length_productTuples (ps fs ls ss : List String) :
    (productTuples ps fs ls ss).length =
      ps.length * fs.length * ls.length * ss.length := by
  have h : (productTuples ps fs ls ss).length =
      ps.length * (fs.length * (ls.length * ss.length)) := by
    rw [productTuples]
    refine length_flatMap_const _ _ _ fun p _ => ?_
    refine length_flatMap_const _ _ _ fun f _ => ?_
    refine length_flatMap_const _ _ _ fun l _ => ?_
    simp
  rw [h]; ring

theorem productTuples_eq_product (ps fs ls ss : List String) :
    productTuples ps fs ls ss = ps ×ˢ (fs ×ˢ (ls ×ˢ ss)) := by
  simp only [SProd.sprod, List.product, productTuples, List.map_flatMap,
    List.map_map]
  rfl

theorem nodup_productTuples {ps fs ls ss : List String}
    (hp : ps.Nodup) (hf : fs.Nodup) (hl : ls.Nodup) (hs : ss.Nodup) :
    (productTuples ps fs ls ss).Nodup := by
  rw [productTuples_eq_product]
  exact hp.product (hf.product (hl.product hs))

theorem usernamegen_card_le_prod
    (fns lns pfs sfs : List String) (nf nl : Nat) (aao : Bool) :
    (usernamegen fns lns pfs sfs nf nl aao).card ≤
      (substEmpty pfs).length * (substEmpty fns).length *
        (substEmpty lns).length * (substEmpty sfs).length := by
  rw [usernamegen]
  refine (List.toFinset_card_le _).trans ?_
  refine (List.length_filter_le _ _).trans ?_
  rw [List.length_map, length_productTuples]

/-- C6 (amended): for non-empty inputs the result size is at most
`|prefixes| * |firstNames| * |lastNames| * |suffixes|`, with equality when
additionally each sequence is duplicate-free, no two distinct tuples yield
the same candidate, and no candidate is empty. -/
theorem usernamegen_card_bound
    (fns lns pfs sfs : List String) (nf nl : Nat) (aao : Bool)
    (h1 : fns ≠ []) (h2 : lns ≠ []) (h3 : pfs ≠ []) (h4 : sfs ≠ []) :
    (usernamegen fns lns pfs sfs nf nl aao).card ≤
      pfs.length * fns.length * lns.length * sfs.length ∧
    (fns.Nodup → lns.Nodup → pfs.Nodup → sfs.Nodup →
      (∀ t1 ∈ productTuples pfs fns lns sfs,
        ∀ t2 ∈ productTuples pfs fns lns sfs,
          candidateOfTuple nf nl aao t1 = candidateOfTuple nf nl aao t2 →
            t1 = t2) →
      (∀ t ∈ productTuples pfs fns lns sfs,
        candidateOfTuple nf nl aao t ≠ "") →
      (usernamegen fns lns pfs sfs nf nl aao).card =
        pfs.length * fns.length * lns.length * sfs.length) := by
  constructor
  · have h := usernamegen_card_le_prod fns lns pfs sfs nf nl aao
    rwa [substEmpty_of_ne_nil h1, substEmpty_of_ne_nil h2,
      substEmpty_of_ne_nil h3, substEmpty_of_ne_nil h4] at h
  · intro hn1 hn2 hn3 hn4 hinj hne
    rw [usernamegen, substEmpty_of_ne_nil h1, substEmpty_of_ne_nil h2,
      substEmpty_of_ne_nil h3, substEmpty_of_ne_nil h4]
    have hfilter :
        ((productTuples pfs fns lns sfs).map
            (candidateOfTuple nf nl aao)).filter (fun u => u != "") =
          (productTuples pfs fns lns sfs).map (candidateOfTuple nf nl aao) := by
      rw [List.filter_eq_self]
      intro u hu
      obtain ⟨t, ht, rfl⟩ := List.mem_map.mp hu
      exact bne_iff_ne.mpr (hne t ht)
    rw [hfilter]
    have hnodup : ((productTuples pfs fns lns sfs).map
        (candidateOfTuple nf nl aao)).Nodup :=
      (nodup_productTuples hn3 hn1 hn2 hn4).map_on hinj
    rw [List.toFinset_card_of_nodup hnodup, List.length_map,
      length_productTuples]

/-- C6 witness: a concrete duplicate-free input on which both the bound and
the equality case of the amended claim are discharged. -/
theorem usernamegen_card_bound_witness :
    (usernamegen ["Al", "Cy"] ["Bo"] ["x"] ["y"] 2 2 false).card ≤
      (["x"] : List String).length * (["Al", "Cy"] : List String).length *
        (["Bo"] : List String).length * (["y"] : List String).length ∧
    (usernamegen ["Al", "Cy"] ["Bo"] ["x"] ["y"] 2 2 false).card =
      (["x"] : List String).length * (["Al", "Cy"] : List String).length *
        (["Bo"] : List String).length * (["y"] : List String).length := by
  have h := usernamegen_card_bound ["Al", "Cy"] ["Bo"] ["x"] ["y"] 2 2 false
    (by decide) (by decide) (by decide) (by decide)
  exact ⟨h.1, h.2 (by decide) (by decide) (by decide) (by decide) (by decide)
    (by decide)⟩

/-- C6 counterexample: with a duplicated first name all four sequences are
non-empty, no two distinct tuples collide (the only repeated candidates come
from equal tuples) and no candidate is empty, yet the result size is 1,
strictly below the product 1 * 2 * 1 * 1 = 2 of the sequence lengths, so
the equality case of the claim fails as stated. -/
theorem usernamegen_card_equality_counterexample :
    (["a", "a"] ≠ ([] : List String) ∧ ["b"] ≠ ([] : List String) ∧
      [""] ≠ ([] : List String)) ∧
    (∀ t1 ∈ productTuples [""] ["a", "a"] ["b"] [""],
      ∀ t2 ∈ productTuples [""] ["a", "a"] ["b"] [""],
        candidateOfTuple 3 3 false t1 = candidateOfTuple 3 3 false t2 →
          t1 = t2) ∧
    (∀ t ∈ productTuples [""] ["a", "a"] ["b"] [""],
      candidateOfTuple 3 3 false t ≠ "") ∧
    (usernamegen ["a", "a"] ["b"] [""] [""] 3 3 false).card ≠
      ([""] : List String).length * (["a", "a"] : List String).length *
        (["b"] : List String).length * ([""] : List String).length := by
  decide

/-- C7: the generator is a deterministic function of its seven arguments:
identical inputs produce equal result sets.  (Absence of input mutation is
inherent in the embedding: `usernamegen` is a pure function.) -/
theorem usernamegen_deterministic :
    ∀ (fns1 fns2 lns1 lns2 pfs1 pfs2 sfs1 sfs2 : List String)
      (nf1 nf2 nl1 nl2 : Nat) (aao1 aao2 : Bool),
      fns1 = fns2 → lns1 = lns2 → pfs1 = pfs2 → sfs1 = sfs2 →
      nf1 = nf2 → nl1 = nl2 → aao1 = aao2 →
      usernamegen fns1 lns1 pfs1 sfs1 nf1 nl1 aao1 =
        usernamegen fns2 lns2 pfs2 sfs2 nf2 nl2 aao2 := by
  rintro _ _ _ _ _ _ _ _ _ _ _ _ _ _ rfl rfl rfl rfl rfl rfl rfl
  rfl

/-- C7 witness: determinism discharged on a concrete pair of equal inputs. -/
theorem usernamegen_deterministic_witness :
    usernamegen ["Jo"] ["Ek"] [] [] 3 3 false =
      usernamegen ["Jo"] ["Ek"] [] [] 3 3 false :=
  usernamegen_deterministic ["Jo"] ["Jo"] ["Ek"] ["Ek"] [] [] [] [] 3 3 3 3
    false false rfl rfl rfl rfl rfl rfl rfl

/-- C8: `usernamegen` is total: on every well-formed input (any strings, any
natural truncation lengths) it returns a finite set, whose size is moreover
bounded by the product of the (empty-axis-substituted) input sizes — there
is no error branch. -/
theorem usernamegen_total :
    ∀ (firstNames lastNames prefixes suffixes : List String)
      (numFirstNameChars numLastNameChars : Nat) (permitAao : Bool),
      ∃ S : Finset String,
        usernamegen firstNames lastNames prefixes suffixes
            numFirstNameChars numLastNameChars permitAao = S ∧
        S.card ≤ (substEmpty prefixes).length *
            (substEmpty firstNames).length * (substEmpty lastNames).length *
            (substEmpty suffixes).length :=
  fun fns lns pfs sfs nf nl aao =>
    ⟨_, rfl, usernamegen_card_le_prod fns lns pfs sfs nf nl aao⟩
